import Mathlib

/-!
Shallow embedding of the kadesh file-watcher's event-to-action dispatch
pipeline (src/config.rs, src/main.rs, src/actions.rs), together with proofs
about routing, filtering, action selection and command execution.

Paths are modelled at the level the Rust code observes them: a path is a
sequence of components, each component a sequence of abstract bytes, where a
byte is `some c` when it is valid text and `none` when it is not (a non-UTF-8
byte). Operating-system effects (shell expansion, canonicalization, process
spawning) are passed in as explicit function parameters.
-/

namespace Kadesh

/-- One abstract byte of an OS string: `some c` is a valid text character,
`none` a byte that cannot be rendered as text (non-UTF-8). -/
abbrev RawName := List (Option Char)

/-- Substring containment on character lists (model of Rust `str::contains`
with a string pattern). -/
def listContainsSub (hay sub : List Char) : Bool :=
  match hay with
  | [] => sub.isEmpty
  | c :: t => sub.isPrefixOf (c :: t) || listContainsSub t sub

/-- Substring containment on strings. -/
def strContainsSub (hay sub : String) : Bool :=
  listContainsSub hay.toList sub.toList

/-- Structural model of Rust `str::to_lowercase` (the configured names it is
applied to are ASCII, where per-character lowering is exact). -/
def strToLower (s : String) : String :=
  String.mk (s.toList.map Char.toLower)

/-- Structural model of Rust `str::trim`: drop whitespace from both ends. -/
def strTrim (s : String) : String :=
  String.mk
    (((s.toList.dropWhile Char.isWhitespace).reverse.dropWhile
        Char.isWhitespace).reverse)

/-- Replace every leftmost non-overlapping occurrence of `pattern`, scanning
left to right. The fuel argument (instantiated with the string length, which
bounds the number of steps) keeps the recursion structural. -/
def replaceAllFuel (pattern replacement : List Char) :
    Nat → List Char → List Char
  | _, [] => []
  | 0, s => s
  | fuel + 1, c :: rest =>
    if !pattern.isEmpty && pattern.isPrefixOf (c :: rest) then
      replacement ++
        replaceAllFuel pattern replacement fuel ((c :: rest).drop pattern.length)
    else c :: replaceAllFuel pattern replacement fuel rest

/-- Structural model of Rust `str::replace` for a nonempty pattern (the only
pattern the program uses is the placeholder "\x7b\x7d"). -/
def strReplace (s pattern replacement : String) : String :=
  String.mk
    (replaceAllFuel pattern.toList replacement.toList s.toList.length s.toList)

/-- Split a character list on a separator character. -/
def splitOnChar (sep : Char) : List Char → List (List Char)
  | [] => [[]]
  | c :: rest =>
    match splitOnChar sep rest with
    | [] => [[c]]
    | g :: gs => if c == sep then [] :: g :: gs else (c :: g) :: gs

/-- Join path components with slashes. -/
def joinWithSlash : List String → String
  | [] => ""
  | [s] => s
  | s :: rest => s ++ "/" ++ joinWithSlash rest

/-- A filesystem path as the Rust `Path` API observes it: an absolute flag
(the `RootDir` component) followed by the normal components. -/
structure FsPath where
  absolute : Bool
  components : List RawName
deriving DecidableEq, Repr

/-- Render one component as text; fails iff it holds a non-text byte. -/
def renderName (n : RawName) : Option String :=
  (n.mapM id).map fun cs => String.mk cs

/-- Model of Rust `Path::to_str`: the whole path renders as text iff every
component does. -/
def FsPath.to_str (p : FsPath) : Option String :=
  (p.components.mapM renderName).map fun parts =>
    (if p.absolute then "/" else "") ++ joinWithSlash parts

/-- Model of Rust `Path::starts_with`: component-wise containment, with the
root-dir component compared first. -/
def FsPath.starts_with (p base : FsPath) : Bool :=
  (p.absolute == base.absolute) && base.components.isPrefixOf p.components

/-- Characters after the last dot of a file name, or `none` when the name has
no dot. Used for the extension rule, which ignores a dot in head position. -/
def afterLastDot : RawName → Option RawName
  | [] => none
  | c :: rest =>
    match afterLastDot rest with
    | some r => some r
    | none => if c = some '.' then some rest else none

/-- Model of Rust `Path::extension` on the file name: the part after the last
dot, where a dot at the very start of the name does not count. -/
def rawExtension (n : RawName) : Option RawName :=
  match n with
  | [] => none
  | _ :: rest => afterLastDot rest

/-- Model of the Rust chain `path.extension().and_then(|os| os.to_str())`:
the extension of the last component, rendered as text. -/
def FsPath.extension_str (p : FsPath) : Option String :=
  (p.components.getLast?.bind rawExtension).bind renderName

/-! ### Event kinds (the `notify` crate's taxonomy, as consumed by kadesh) -/

inductive AccessMode | Any | Execute | Read | Write | Other
deriving DecidableEq, Repr, Fintype

inductive AccessKind
  | Any
  | Read
  | Open (mode : AccessMode)
  | Close (mode : AccessMode)
  | Other
deriving DecidableEq, Repr, Fintype

inductive DataChange | Any | Size | Content | Other
deriving DecidableEq, Repr, Fintype

inductive MetadataKind
  | Any | AccessTime | WriteTime | Permission | Ownership | Extended | Other
deriving DecidableEq, Repr, Fintype

inductive RenameMode | Any | To | From | Both | Other
deriving DecidableEq, Repr, Fintype

inductive ModifyKind
  | Any
  | Data (change : DataChange)
  | Metadata (kind : MetadataKind)
  | Name (mode : RenameMode)
  | Other
deriving DecidableEq, Repr, Fintype

inductive CreateKind | Any | File | Folder | Other
deriving DecidableEq, Repr, Fintype

inductive RemoveKind | Any | File | Folder | Other
deriving DecidableEq, Repr, Fintype

inductive EventKind
  | Any
  | Access (kind : AccessKind)
  | Create (kind : CreateKind)
  | Modify (kind : ModifyKind)
  | Remove (kind : RemoveKind)
  | Other
deriving DecidableEq, Repr, Fintype

def EventKind.is_access : EventKind → Bool
  | .Access _ => true
  | _ => false

def EventKind.is_create : EventKind → Bool
  | .Create _ => true
  | _ => false

def EventKind.is_modify : EventKind → Bool
  | .Modify _ => true
  | _ => false

def EventKind.is_remove : EventKind → Bool
  | .Remove _ => true
  | _ => false

/-- A debounced filesystem event as consumed by `process_event`. -/
structure Event where
  kind : EventKind
  paths : List FsPath
deriving DecidableEq, Repr

/-! ### Configuration data model (src/config.rs) -/

structure Action where
  event : String
  command : String
deriving DecidableEq, Repr

structure Filters where
  event_kinds : Option (List String)
  extensions : Option (List String)
  ignore_patterns : List String
deriving DecidableEq, Repr

structure WatchConfig where
  path : String
  recursive : Bool
  actions : List Action
  filter : Filters
deriving DecidableEq, Repr

structure Config where
  log_level : String
  debounce_ms : Nat
  watches : List WatchConfig
deriving DecidableEq, Repr

/-- Translation of `path_matches_pattern` (src/config.rs):
`path.to_str().map_or(false, |s| s.contains(pattern))`. -/
def path_matches_pattern (path : FsPath) (pattern : String) : Bool :=
  match path.to_str with
  | some s => strContainsSub s pattern
  | none => false

/-- Translation of `event_kind_matches` (src/config.rs). Coarse names are
compared after lowercasing `kind_str`; the fall-through arm compares the
original `kind_str` against the fine-grained names. -/
def event_kind_matches (kind : EventKind) (kind_str : String) : Bool :=
  if strToLower kind_str = "access" then kind.is_access
  else if strToLower kind_str = "create" then kind.is_create
  else if strToLower kind_str = "modify" ∨ strToLower kind_str = "write" then
    kind.is_modify || kind.is_access
  else if strToLower kind_str = "remove" then kind.is_remove
  else
    match kind with
    | .Modify (.Data .Content) => kind_str == "content_change"
    | .Modify (.Name .To) => kind_str == "rename_to"
    | .Modify (.Name .From) => kind_str == "rename_from"
    | .Create .File => kind_str == "create_file"
    | .Create .Folder => kind_str == "create_folder"
    | .Remove .File => kind_str == "remove_file"
    | .Remove .Folder => kind_str == "remove_folder"
    | _ => false

/-- Translation of the per-path loop body of `Filters::matches`
(src/config.rs): for each path, first the ignore-pattern check, then, when an
extension set is configured, the extension check. -/
def Filters.paths_pass (f : Filters) : List FsPath → Bool
  | [] => true
  | p :: rest =>
    if f.ignore_patterns.any (fun pattern => path_matches_pattern p pattern) then
      false
    else
      match f.extensions with
      | some exts =>
        match p.extension_str with
        | some ext =>
          if exts.contains ("." ++ ext) then f.paths_pass rest else false
        | none => false
      | none => f.paths_pass rest

/-- Translation of `Filters::matches` (src/config.rs): the kind check (when
`event_kinds` is set) followed by the per-path loop. -/
def Filters.matches (f : Filters) (event : Event) : Bool :=
  (match f.event_kinds with
   | some kinds => kinds.any fun k => event_kind_matches event.kind k
   | none => true)
  && f.paths_pass event.paths

/-! ### Watch-root resolution (src/config.rs, `expanded_absolute_path`) -/

/-- Model of `PathBuf::from` on a config string: absolute iff it starts with
a slash; components are the slash-separated pieces with empty and `.` pieces
normalized away; config strings are text, so every byte is `some`. -/
def parsePath (s : String) : FsPath :=
  { absolute := match s.toList with | '/' :: _ => true | _ => false
    components :=
      ((splitOnChar '/' s.toList).filter fun c =>
          !c.isEmpty && c ≠ ['.']).map fun c => c.map some }

/-- Translation of `WatchConfig::expanded_absolute_path` (src/config.rs).
The shell expansion and the OS canonicalization are passed in as explicit
functions (`none` models their error case). Expansion failure is the
`PathExpansion` error; canonicalization failure is logged and the expanded
path is used as-is (`.or_else(|_| Ok(path))`). -/
def WatchConfig.expanded_absolute_path (expand : String → Option String)
    (canonicalize : FsPath → Option FsPath) (wc : WatchConfig) :
    Option FsPath :=
  match expand wc.path with
  | none => none
  | some expanded =>
    let path := parsePath expanded
    match canonicalize path with
    | some c => some c
    | none => some path

/-! ### Event processing (src/main.rs, `process_event`) -/

/-- Modelled from the spec: `event_kind_to_primary_string` is imported from
`config` and called by `process_event` in src/main.rs, but its definition is
absent from the given sources. The spec defines the primary kind string as a
canonical single label for the event's concrete kind variant (file creation
maps to "create_file"), with the fine-grained labels "content_change",
"rename_to", "rename_from", "create_file", "create_folder", "remove_file",
"remove_folder"; variants without a defined canonical label yield no label. -/
def event_kind_to_primary_string : EventKind → Option String
  | .Create .File => some "create_file"
  | .Create .Folder => some "create_folder"
  | .Remove .File => some "remove_file"
  | .Remove .Folder => some "remove_folder"
  | .Modify (.Data .Content) => some "content_change"
  | .Modify (.Name .To) => some "rename_to"
  | .Modify (.Name .From) => some "rename_from"
  | _ => none

/-- Translation of the relevance check in `process_event` (src/main.rs):
`event.paths.iter().any(|p| ...)` where a resolved root is compared with
`p.starts_with(&watch_root)` and a resolution error yields `false`. The
resolution outcome is passed in as `resolved`. -/
def is_relevant (resolved : Option FsPath) (event : Event) : Bool :=
  event.paths.any fun p =>
    match resolved with
    | some watch_root => p.starts_with watch_root
    | none => false

/-- Translation of the `matched` computation of the action loop in
`process_event` (src/main.rs): the lowercased `event` selector equals "any",
or equals the primary kind string when one exists. -/
def action_matches (primary_kind_str : Option String) (action : Action) :
    Bool :=
  strToLower action.event == "any"
  || (match primary_kind_str with
      | some primary_kind => strToLower action.event == primary_kind
      | none => false)

/-- Translation of the action loop of `process_event` (src/main.rs): scan
actions in order; a matched action with an all-whitespace command is skipped
via `continue` (scanning goes on); the first matched action with a nonempty
command is the one executed (`break`). Returns the action whose command gets
dispatched, if any. -/
def select_action (primary_kind_str : Option String) :
    List Action → Option Action
  | [] => none
  | action :: rest =>
    if action_matches primary_kind_str action then
      if strTrim action.command == "" then select_action primary_kind_str rest
      else some action
    else select_action primary_kind_str rest

/-- Per-watch body of `process_event` (src/main.rs): relevance, filter, and
the action loop; when an action is selected its command is dispatched once
for every path of the event. Returns the dispatched (command, path) pairs;
`resolve` is the outcome of `expanded_absolute_path` for this watch. -/
def process_watch (resolve : WatchConfig → Option FsPath) (event : Event)
    (watch_config : WatchConfig) : List (String × FsPath) :=
  if !(is_relevant (resolve watch_config) event) then []
  else if !(watch_config.filter.matches event) then []
  else
    match select_action (event_kind_to_primary_string event.kind)
        watch_config.actions with
    | some action => event.paths.map fun p => (action.command, p)
    | none => []

/-- Translation of `process_event` (src/main.rs): every configured watch is
processed in order; the result is the list of dispatched (command, path)
pairs across all watches. -/
def process_event (resolve : WatchConfig → Option FsPath) (config : Config)
    (event : Event) : List (String × FsPath) :=
  (config.watches.map (process_watch resolve event)).flatten

/-! ### Action execution (src/actions.rs, `execute_action`) -/

/-- Outcome of spawning the substituted command through the shell: the spawn
itself can fail, or the process exits with a success flag. -/
inductive SpawnResult
  | ioError
  | output (success : Bool)
deriving DecidableEq, Repr

/-- The error variants of `AppError` (src/errors.rs) reachable from
`execute_action`. `EmptyCommand` carries the substituted command in its
`event_kind` field, as the Rust code does. -/
inductive AppError
  | PathNonUtf8 (path : FsPath)
  | EmptyCommand (event_kind : String) (path : FsPath)
  | ActionExec (command : String)
deriving DecidableEq, Repr

/-- Translation of `execute_action` (src/actions.rs): render the path as
text (else `PathNonUtf8`), substitute every "\x7b\x7d" occurrence in the
template, reject an all-whitespace result (`EmptyCommand`), then run the
command through the shell (`run` models `Command::output`): a spawn error or
a nonzero exit is `ActionExec` carrying the substituted command. -/
def execute_action (run : String → SpawnResult) (command_template : String)
    (path : FsPath) : Except AppError Unit :=
  match path.to_str with
  | none => .error (.PathNonUtf8 path)
  | some path_str =>
    let command_to_run := strReplace command_template "\x7b\x7d" path_str
    if strTrim command_to_run == "" then
      .error (.EmptyCommand command_to_run path)
    else
      match run command_to_run with
      | .ioError => .error (.ActionExec command_to_run)
      | .output true => .ok ()
      | .output false => .error (.ActionExec command_to_run)

/-! ### Orchestrator loop (src/main.rs, the `event_processor` task) -/

/-- One batch delivered by the debounce layer: a list of events or a list of
error messages. -/
inductive DebounceBatch
  | Ok (events : List Event)
  | Err (errors : List String)
deriving DecidableEq, Repr

/-- Translation of the `event_processor` loop of src/main.rs over an
explicit list of incoming batches: an event batch dispatches `process_event`
for each event; an error batch logs each error and is discarded; the loop
then continues with the remaining batches. Returns the error log and the
dispatched (command, path) pairs. -/
def run_event_loop (resolve : WatchConfig → Option FsPath) (config : Config) :
    List DebounceBatch → List String × List (String × FsPath)
  | [] => ([], [])
  | batch :: rest =>
    match batch with
    | .Ok events =>
      let dispatched := (events.map (process_event resolve config)).flatten
      let (logs, ds) := run_event_loop resolve config rest
      (logs, dispatched ++ ds)
    | .Err errors =>
      let (logs, ds) := run_event_loop resolve config rest
      (errors.map (fun e => "Debouncer error: " ++ e) ++ logs, ds)

/-! ### Helper lemmas -/

/-- Component-wise characterization of the `starts_with` check. -/
theorem starts_with_iff (p base : FsPath) :
    p.starts_with base = true ↔
      p.absolute = base.absolute ∧ ∃ t, base.components ++ t = p.components := by
  simp [FsPath.starts_with, List.IsPrefix]

/-- Concrete watch root, event paths and configs shared by several claims. -/
def rootFoo : FsPath := parsePath "/tmp/foo"

def pathFoobar : FsPath := parsePath "/tmp/foobar"

/-- A path carrying a non-text byte in its single component. -/
def badPath : FsPath := ⟨true, [[none]]⟩

/-! ### C1: event routing by path containment -/

/-- C1: an event is routed to a watch iff some event path equals the watch's
resolved root or descends from it, component-wise; a watch whose root fails
to resolve is excluded without error; string-prefix overlap (such as
`/tmp/foobar` against root `/tmp/foo`) does not route. -/
theorem routing_iff_path_containment :
    (∀ (watch_root : FsPath) (event : Event),
        is_relevant (some watch_root) event = true ↔
          ∃ p ∈ event.paths, p.absolute = watch_root.absolute ∧
            ∃ t, watch_root.components ++ t = p.components)
    ∧ (∀ event : Event, is_relevant none event = false)
    ∧ (∀ (resolve : WatchConfig → Option FsPath) (event : Event)
          (wc : WatchConfig), resolve wc = none →
          process_watch resolve event wc = [])
    ∧ is_relevant (some rootFoo) ⟨.Create .File, [pathFoobar]⟩ = false
    ∧ is_relevant (some rootFoo) ⟨.Create .File, [parsePath "/tmp/foo/a"]⟩
        = true := by
  refine ⟨?_, ?_, ?_, by decide, by decide⟩
  · intro watch_root event
    simp [is_relevant, starts_with_iff]
  · intro event
    simp [is_relevant]
  · intro resolve event wc h
    simp [process_watch, is_relevant, h]

/-- C1 witness: a watch whose root resolution fails dispatches nothing. -/
theorem routing_iff_path_containment_witness :
    process_watch (fun _ => none) ⟨.Create .File, [pathFoobar]⟩
      ⟨"/tmp/foo", false, [⟨"any", "echo hi"⟩], ⟨none, none, []⟩⟩ = [] :=
  routing_iff_path_containment.2.2.1 (fun _ => none)
    ⟨.Create .File, [pathFoobar]⟩
    ⟨"/tmp/foo", false, [⟨"any", "echo hi"⟩], ⟨none, none, []⟩⟩ rfl

/-! ### C9: non-UTF-8 paths never match ignore patterns -/

/-- C9: a path that cannot be rendered as text never matches any ignore
pattern, so the ignore check can never reject an event on account of a
non-UTF-8 path, whatever the configured patterns are. -/
theorem non_utf8_path_never_matches_ignore :
    (∀ (p : FsPath) (pattern : String), p.to_str = none →
        path_matches_pattern p pattern = false)
    ∧ (∀ (f : Filters) (p : FsPath), p.to_str = none →
        (f.ignore_patterns.any fun pattern => path_matches_pattern p pattern)
          = false) := by
  constructor
  · intro p pattern h
    simp [path_matches_pattern, h]
  · intro f p h
    simp only [List.any_eq_false]
    intro pattern _
    simp [path_matches_pattern, h]

/-- C9 witness: the concrete non-text path matches no pattern. -/
theorem non_utf8_path_never_matches_ignore_witness :
    path_matches_pattern badPath "foo" = false :=
  non_utf8_path_never_matches_ignore.1 badPath "foo" rfl

/-! ### C10: an event with no paths dispatches nothing -/

/-- C10: an event whose path set is empty is relevant to no watch and the
whole pipeline dispatches no command for it, for every configuration and
every resolution outcome. -/
theorem empty_paths_event_dispatches_nothing :
    ∀ (resolve : WatchConfig → Option FsPath) (config : Config)
      (kind : EventKind),
      process_event resolve config ⟨kind, []⟩ = []
      ∧ ∀ resolved : Option FsPath, is_relevant resolved ⟨kind, []⟩ = false := by
  intro resolve config kind
  constructor
  · simp [process_event, process_watch, is_relevant]
  · intro resolved
    simp [is_relevant]

/-! ### C2: the kind-name table -/

/-- C2 counterexample: the fine-grained names are compared against the
configured string as written, not case-insensitively: "Content_Change" fails
to match a content-change event even though its lowercasing is in the
table. -/
theorem fine_grained_kind_name_case_sensitive_cex :
    event_kind_matches (.Modify (.Data .Content)) "Content_Change" = false
    ∧ event_kind_matches (.Modify (.Data .Content)) "content_change" = true := by
  decide

/-- C2 amended: coarse names are matched case-insensitively; each
fine-grained name, configured exactly in lowercase, matches its single
concrete variant; any name that is neither a coarse name up to case nor a
verbatim fine-grained name matches no kind. -/
theorem event_kind_matches_characterization :
    (∀ (kind : EventKind) (s : String), strToLower s = "access" →
        event_kind_matches kind s = kind.is_access)
    ∧ (∀ (kind : EventKind) (s : String), strToLower s = "create" →
        event_kind_matches kind s = kind.is_create)
    ∧ (∀ (kind : EventKind) (s : String),
        strToLower s = "modify" ∨ strToLower s = "write" →
        event_kind_matches kind s = (kind.is_modify || kind.is_access))
    ∧ (∀ (kind : EventKind) (s : String), strToLower s = "remove" →
        event_kind_matches kind s = kind.is_remove)
    ∧ (∀ kind : EventKind, event_kind_matches kind "content_change"
        = (kind == .Modify (.Data .Content)))
    ∧ (∀ kind : EventKind, event_kind_matches kind "rename_to"
        = (kind == .Modify (.Name .To)))
    ∧ (∀ kind : EventKind, event_kind_matches kind "rename_from"
        = (kind == .Modify (.Name .From)))
    ∧ (∀ kind : EventKind, event_kind_matches kind "create_file"
        = (kind == .Create .File))
    ∧ (∀ kind : EventKind, event_kind_matches kind "create_folder"
        = (kind == .Create .Folder))
    ∧ (∀ kind : EventKind, event_kind_matches kind "remove_file"
        = (kind == .Remove .File))
    ∧ (∀ kind : EventKind, event_kind_matches kind "remove_folder"
        = (kind == .Remove .Folder))
    ∧ (∀ (kind : EventKind) (s : String),
        strToLower s ≠ "access" → strToLower s ≠ "create" →
        strToLower s ≠ "modify" → strToLower s ≠ "write" →
        strToLower s ≠ "remove" →
        s ≠ "content_change" → s ≠ "rename_to" → s ≠ "rename_from" →
        s ≠ "create_file" → s ≠ "create_folder" → s ≠ "remove_file" →
        s ≠ "remove_folder" →
        event_kind_matches kind s = false) := by
  refine ⟨?_, ?_, ?_, ?_, by decide, by decide, by decide, by decide,
    by decide, by decide, by decide, ?_⟩
  · intro kind s h
    simp [event_kind_matches, h]
  · intro kind s h
    simp [event_kind_matches, h]
  · intro kind s h
    rcases h with h | h <;> simp [event_kind_matches, h]
  · intro kind s h
    simp [event_kind_matches, h]
  · intro kind s ha hc hm hw hr f1 f2 f3 f4 f5 f6 f7
    have h3 : ¬(strToLower s = "modify" ∨ strToLower s = "write") :=
      not_or.mpr ⟨hm, hw⟩
    unfold event_kind_matches
    rw [if_neg ha, if_neg hc, if_neg h3, if_neg hr]
    cases kind with
    | Any => rfl
    | Other => rfl
    | Access k => rfl
    | Create ck => cases ck <;> simp [beq_eq_false_iff_ne, f4, f5]
    | Remove rk => cases rk <;> simp [beq_eq_false_iff_ne, f6, f7]
    | Modify mk =>
      cases mk with
      | Any => rfl
      | Other => rfl
      | Metadata m => rfl
      | Data dc => cases dc <;> simp [beq_eq_false_iff_ne, f1]
      | Name rm => cases rm <;> simp [beq_eq_false_iff_ne, f2, f3]

/-- C2 witness: the coarse name "CREATE" matches a file-creation event in
any letter case, and an unrecognized name matches nothing. -/
theorem event_kind_matches_characterization_witness :
    event_kind_matches (.Create .File) "CREATE"
        = (EventKind.Create .File).is_create
    ∧ event_kind_matches (.Create .File) "nonsense" = false :=
  ⟨event_kind_matches_characterization.2.1 (.Create .File) "CREATE"
      (by decide),
   event_kind_matches_characterization.2.2.2.2.2.2.2.2.2.2.2
      (.Create .File) "nonsense" (by decide) (by decide) (by decide)
      (by decide) (by decide) (by decide) (by decide) (by decide)
      (by decide) (by decide) (by decide) (by decide)⟩

/-! ### C3: the extension check -/

/-- The per-path success condition of the extension check: the path carries
an extension, and its dot-prefixed rendering is in the configured set. -/
def ext_ok (exts : List String) (p : FsPath) : Bool :=
  match p.extension_str with
  | some ext => exts.contains ("." ++ ext)
  | none => false

/-- Unfolding equation for the path loop on a nonempty list. -/
theorem paths_pass_cons (f : Filters) (q : FsPath) (rest : List FsPath) :
    f.paths_pass (q :: rest) =
      if f.ignore_patterns.any (fun pattern => path_matches_pattern q pattern)
      then false
      else
        match f.extensions with
        | some exts =>
          match q.extension_str with
          | some ext =>
            if exts.contains ("." ++ ext) then f.paths_pass rest else false
          | none => false
        | none => f.paths_pass rest := rfl

/-- With an extension set configured, a passing path list has `ext_ok` on
every path. -/
theorem paths_pass_ext_necessary (f : Filters) (exts : List String)
    (hf : f.extensions = some exts) :
    ∀ ps : List FsPath, f.paths_pass ps = true →
      ∀ p ∈ ps, ext_ok exts p = true := by
  intro ps
  induction ps with
  | nil => intro _ p hp; cases hp
  | cons q rest ih =>
    intro h p hp
    rw [paths_pass_cons] at h
    split at h
    · simp at h
    · simp only [hf] at h
      rcases List.mem_cons.mp hp with rfl | hp
      · rcases hext : p.extension_str with _ | ext
        · simp only [hext] at h; simp at h
        · simp only [hext] at h
          simp only [ext_ok, hext]
          cases hcont : exts.contains ("." ++ ext)
          · rw [hcont] at h; simp at h
          · rfl
      · rcases hext : q.extension_str with _ | ext
        · simp only [hext] at h; simp at h
        · simp only [hext] at h
          cases hcont : exts.contains ("." ++ ext)
          · rw [hcont] at h; simp at h
          · rw [hcont] at h
            simp only [if_pos] at h
            exact ih h p hp

/-- With an extension set configured, one failing path rejects the whole
list. -/
theorem paths_pass_ext_reject (f : Filters) (exts : List String)
    (hf : f.extensions = some exts) :
    ∀ (ps : List FsPath) (p : FsPath), p ∈ ps → ext_ok exts p = false →
      f.paths_pass ps = false := by
  intro ps
  induction ps with
  | nil => intro p hp; cases hp
  | cons q rest ih =>
    intro p hp hbad
    rw [paths_pass_cons]
    split
    · rfl
    · simp only [hf]
      rcases List.mem_cons.mp hp with rfl | hp
      · rcases hext : p.extension_str with _ | ext
        · simp only [hext]
        · simp only [ext_ok, hext] at hbad
          simp only [hext]
          rw [hbad]
          simp
      · rcases hext : q.extension_str with _ | ext
        · simp only [hext]
        · simp only [hext]
          cases hcont : exts.contains ("." ++ ext)
          · simp
          · simp [ih p hp hbad]

/-- The `/a/b.log` versus `/a/b.txt` filter of the spec's example. -/
def logFilter : Filters := ⟨none, some [".log"], []⟩

/-- C3: with an extensions set configured, a kept event has on every path an
extension whose dot-prefixed rendering is in the set; a path without such an
extension rejects the event; concretely, extensions {".log"} rejects
`/a/b.txt` and accepts `/a/b.log`. -/
theorem extension_filter_check :
    (∀ (f : Filters) (exts : List String) (e : Event),
        f.extensions = some exts → f.matches e = true →
        ∀ p ∈ e.paths, ext_ok exts p = true)
    ∧ (∀ (f : Filters) (exts : List String) (e : Event) (p : FsPath),
        f.extensions = some exts → p ∈ e.paths → ext_ok exts p = false →
        f.matches e = false)
    ∧ logFilter.matches ⟨.Modify (.Data .Content), [parsePath "/a/b.txt"]⟩
        = false
    ∧ logFilter.matches ⟨.Modify (.Data .Content), [parsePath "/a/b.log"]⟩
        = true := by
  refine ⟨?_, ?_, by decide, by decide⟩
  · intro f exts e hf h p hp
    rw [Filters.matches, Bool.and_eq_true] at h
    exact paths_pass_ext_necessary f exts hf e.paths h.2 p hp
  · intro f exts e p hf hp hbad
    rw [Filters.matches, paths_pass_ext_reject f exts hf e.paths p hp hbad]
    exact Bool.and_false _

/-- C3 witness: the accepting side evaluated at the `/a/b.log` event. -/
theorem extension_filter_check_witness :
    ext_ok [".log"] (parsePath "/a/b.log") = true :=
  extension_filter_check.1 logFilter [".log"]
    ⟨.Modify (.Data .Content), [parsePath "/a/b.log"]⟩ rfl (by decide)
    (parsePath "/a/b.log") (by decide)

/-! ### C4 and C5: action selection -/

/-- Shared helper: the action loop selects the first action whose selector
matches and whose command is nonempty after trimming (a matched action with
an all-whitespace command is passed over by `continue`). -/
theorem select_action_eq_find (primary : Option String)
    (actions : List Action) :
    select_action primary actions =
      actions.find? fun a =>
        action_matches primary a && !(strTrim a.command == "") := by
  induction actions with
  | nil => rfl
  | cons a rest ih =>
    cases h1 : action_matches primary a
    · simp [select_action, List.find?_cons, h1, ih]
    · cases h2 : (strTrim a.command == "")
      · simp [select_action, List.find?_cons, h1, h2, ih]
      · simp [select_action, List.find?_cons, h1, h2, ih]

/-- Shared helper: a selected action always has a command that is nonempty
after trimming. -/
theorem select_action_some_nonempty (primary : Option String)
    (actions : List Action) (a : Action)
    (h : select_action primary actions = some a) : strTrim a.command ≠ "" := by
  rw [select_action_eq_find] at h
  have hp := List.find?_some h
  simp only [Bool.and_eq_true, Bool.not_eq_true', beq_eq_false_iff_ne] at hp
  exact hp.2

/-- C4 counterexample: with actions [(create_file, ""), (any, "echo hi")], a
file-creation event selects the second action, because the first match has
an empty command and scanning continues past it instead of stopping. -/
theorem action_first_match_cex :
    select_action (event_kind_to_primary_string (.Create .File))
        [⟨"create_file", ""⟩, ⟨"any", "echo hi"⟩]
      = some ⟨"any", "echo hi"⟩ := by decide

/-- C4 amended: actions are scanned in configured order and the selected
action is the first whose selector, case-folded, equals "any" or the primary
kind string AND whose command is nonempty after trimming; scanning stops
there. In particular, with actions [(create_file, c1), (any, c2)] and c1
nonempty after trimming, a file-creation event always selects the first
action and never the second. -/
theorem action_selection_first_nonempty_match :
    (∀ (primary : Option String) (actions : List Action),
        select_action primary actions =
          actions.find? fun a =>
            action_matches primary a && !(strTrim a.command == ""))
    ∧ (∀ cmd1 cmd2 : String, strTrim cmd1 ≠ "" →
        select_action (event_kind_to_primary_string (.Create .File))
            [⟨"create_file", cmd1⟩, ⟨"any", cmd2⟩]
          = some ⟨"create_file", cmd1⟩) := by
  refine ⟨select_action_eq_find, ?_⟩
  intro cmd1 cmd2 h
  have h2 : (strTrim cmd1 == "") = false := beq_eq_false_iff_ne.mpr h
  rw [select_action_eq_find, List.find?_cons]
  have hm : (action_matches (event_kind_to_primary_string (.Create .File))
        ⟨"create_file", cmd1⟩ && !(strTrim cmd1 == "")) = true := by
    rw [h2]; rfl
  rw [hm]

/-- C4 witness: a nonempty first command is selected first. -/
theorem action_selection_first_nonempty_match_witness :
    select_action (event_kind_to_primary_string (.Create .File))
        [⟨"create_file", "touch a"⟩, ⟨"any", "y"⟩]
      = some ⟨"create_file", "touch a"⟩ :=
  action_selection_first_nonempty_match.2 "touch a" "y" (by decide)

/-- Watch and config where the first matching action has an all-whitespace
command and a later action still executes. -/
def wAnyAny : WatchConfig :=
  ⟨"/w", false, [⟨"any", "  "⟩, ⟨"any", "echo hi"⟩], ⟨none, none, []⟩⟩

def cfgAnyAny : Config := ⟨"info", 500, [wAnyAny]⟩

/-- C5 counterexample: the first action that matches has an all-whitespace
command; the claim says no command from that watch then runs for the event,
yet the second action's command is dispatched. -/
theorem empty_command_scanning_continues_cex :
    process_event (fun _ => some (parsePath "/w")) cfgAnyAny
        ⟨.Create .File, [parsePath "/w/a.txt"]⟩
      = [("echo hi", parsePath "/w/a.txt")] := by decide

/-- C5 amended: a matched action whose command is empty after trimming is
logged and skipped, never executed — but scanning continues with the
remaining actions, so a later matching action with a nonempty command may
still run; consequently every dispatched command is nonempty after
trimming. -/
theorem empty_command_never_executed :
    (∀ (primary : Option String) (actions : List Action) (a : Action),
        select_action primary actions = some a → strTrim a.command ≠ "")
    ∧ (∀ (resolve : WatchConfig → Option FsPath) (config : Config)
          (event : Event) (c : String) (p : FsPath),
        (c, p) ∈ process_event resolve config event → strTrim c ≠ "") := by
  refine ⟨select_action_some_nonempty, ?_⟩
  intro resolve config event c p h
  simp only [process_event, List.mem_flatten, List.mem_map] at h
  obtain ⟨_, ⟨wc, hwc, rfl⟩, hmem⟩ := h
  simp only [process_watch] at hmem
  split at hmem
  · simp at hmem
  · split at hmem
    · simp at hmem
    · split at hmem
      next action heq =>
        simp only [List.mem_map] at hmem
        obtain ⟨q, _, h2⟩ := hmem
        have hc : action.command = c := congrArg Prod.fst h2
        rw [← hc]
        exact select_action_some_nonempty _ _ _ heq
      next heq => simp at hmem

/-- C5 witness: the dispatched command of the counterexample configuration
is nonempty after trimming. -/
theorem empty_command_never_executed_witness :
    strTrim "echo hi" ≠ "" :=
  empty_command_never_executed.2 (fun _ => some (parsePath "/w")) cfgAnyAny
    ⟨.Create .File, [parsePath "/w/a.txt"]⟩ "echo hi" (parsePath "/w/a.txt")
    (by decide)

/-! ### C6: the execute_action contract -/

/-- Shared helper: unfolding of `execute_action` when the path renders. -/
theorem execute_action_some (run : String → SpawnResult) (tmpl : String)
    (p : FsPath) (s : String) (h : p.to_str = some s) :
    execute_action run tmpl p =
      if strTrim (strReplace tmpl "\x7b\x7d" s) == "" then
        Except.error (AppError.EmptyCommand (strReplace tmpl "\x7b\x7d" s) p)
      else
        match run (strReplace tmpl "\x7b\x7d" s) with
        | .ioError =>
          Except.error (AppError.ActionExec (strReplace tmpl "\x7b\x7d" s))
        | .output true => Except.ok ()
        | .output false =>
          Except.error (AppError.ActionExec (strReplace tmpl "\x7b\x7d" s)) := by
  simp only [execute_action, h]

/-- C6: `execute_action` fails with the path-encoding error exactly when the
path does not render as text; otherwise, with every placeholder occurrence
substituted, it fails with the empty-command error exactly when the result
trims to empty, returns success exactly when the spawned command exits
normally, and otherwise fails with the action-execution error carrying the
substituted command; the template "echo \x7b\x7d" with path text "/tmp/x"
yields the command "echo /tmp/x". -/
theorem execute_action_contract :
    (∀ (run : String → SpawnResult) (tmpl : String) (p : FsPath),
        execute_action run tmpl p
            = Except.error (AppError.PathNonUtf8 p) ↔ p.to_str = none)
    ∧ (∀ (run : String → SpawnResult) (tmpl : String) (p : FsPath)
          (s : String), p.to_str = some s →
        (execute_action run tmpl p
            = Except.error
                (AppError.EmptyCommand (strReplace tmpl "\x7b\x7d" s) p)
          ↔ strTrim (strReplace tmpl "\x7b\x7d" s) = "")
        ∧ (strTrim (strReplace tmpl "\x7b\x7d" s) ≠ "" →
            (execute_action run tmpl p = Except.ok ()
              ↔ run (strReplace tmpl "\x7b\x7d" s) = .output true)
            ∧ (run (strReplace tmpl "\x7b\x7d" s) ≠ .output true →
                execute_action run tmpl p
                  = Except.error
                      (AppError.ActionExec (strReplace tmpl "\x7b\x7d" s)))))
    ∧ strReplace "echo \x7b\x7d" "\x7b\x7d" "/tmp/x" = "echo /tmp/x" := by
  refine ⟨?_, ?_, by decide⟩
  · intro run tmpl p
    cases hts : p.to_str with
    | none => simp [execute_action, hts]
    | some s =>
      rw [execute_action_some run tmpl p s hts]
      constructor
      · intro hcontra
        exfalso
        split at hcontra
        · simp at hcontra
        · cases hrun : run (strReplace tmpl "\x7b\x7d" s) with
          | ioError => rw [hrun] at hcontra; simp at hcontra
          | output b => cases b <;> rw [hrun] at hcontra <;> simp at hcontra
      · intro hcontra
        exact absurd hcontra (by simp)
  · intro run tmpl p s h
    constructor
    · rw [execute_action_some run tmpl p s h]
      cases hb : (strTrim (strReplace tmpl "\x7b\x7d" s) == "")
      · have hne := beq_eq_false_iff_ne.mp hb
        cases hrun : run (strReplace tmpl "\x7b\x7d" s) with
        | ioError => simp [hne]
        | output b => cases b <;> simp [hne]
      · simp [eq_of_beq hb]
    · intro hne
      have hb : (strTrim (strReplace tmpl "\x7b\x7d" s) == "") = false :=
        beq_eq_false_iff_ne.mpr hne
      rw [execute_action_some run tmpl p s h, hb]
      constructor
      · cases hrun : run (strReplace tmpl "\x7b\x7d" s) with
        | ioError => simp [hrun]
        | output b => cases b <;> simp [hrun]
      · intro hneq
        cases hrun : run (strReplace tmpl "\x7b\x7d" s) with
        | ioError => simp
        | output b =>
          cases b
          · simp
          · exact absurd hrun hneq

/-- C6 witness: a successfully exiting command yields success for the
spec's template and path. -/
theorem execute_action_contract_witness :
    execute_action (fun _ => .output true) "echo \x7b\x7d"
        (parsePath "/tmp/x") = Except.ok () :=
  ((execute_action_contract.2.1 (fun _ => .output true) "echo \x7b\x7d"
      (parsePath "/tmp/x") "/tmp/x" (by decide)).2 (by decide)).1.mpr rfl

/-! ### C7: absoluteness of the resolved root -/

/-- Identity shell expansion (a config path without variables or tilde). -/
def expandId : String → Option String := fun s => some s

/-- A canonicalization that always succeeds with an absolute path, as the OS
call does on existing targets. -/
def canonAbs : FsPath → Option FsPath := fun p => some ⟨true, p.components⟩

/-- A canonicalization that always fails, as the OS call does when the
target does not exist. -/
def canonFail : FsPath → Option FsPath := fun _ => none

/-- C7 counterexample: for a relative config path whose target cannot be
canonicalized, resolution succeeds with the expanded path as-is, which is
not absolute — even granting that canonicalization only ever returns
absolute paths. -/
theorem expanded_path_not_always_absolute_cex :
    ¬ (∀ (expand : String → Option String)
          (canonicalize : FsPath → Option FsPath) (wc : WatchConfig)
          (root : FsPath),
          (∀ q c, canonicalize q = some c → c.absolute = true) →
          wc.expanded_absolute_path expand canonicalize = some root →
          root.absolute = true) := by
  intro hclaim
  have h := hclaim expandId canonFail ⟨"foo", false, [], ⟨none, none, []⟩⟩
    (parsePath "foo") (fun q c hc => by cases hc) (by decide)
  exact absurd h (by decide)

/-- C7 amended: when canonicalization succeeds the resolved root is absolute
(inherited from the OS call); when it fails, resolution still succeeds but
returns the expanded path as-is, with no absoluteness requirement. -/
theorem expanded_path_absolute_or_expanded_fallback :
    ∀ (expand : String → Option String)
      (canonicalize : FsPath → Option FsPath) (wc : WatchConfig)
      (root : FsPath),
      (∀ q c, canonicalize q = some c → c.absolute = true) →
      wc.expanded_absolute_path expand canonicalize = some root →
      root.absolute = true ∨
        ∃ s, expand wc.path = some s ∧ canonicalize (parsePath s) = none ∧
          root = parsePath s := by
  intro expand canonicalize wc root hcanon h
  cases he : expand wc.path with
  | none =>
    simp only [WatchConfig.expanded_absolute_path, he] at h
    exact Option.noConfusion h
  | some s =>
    simp only [WatchConfig.expanded_absolute_path, he] at h
    cases hc : canonicalize (parsePath s) with
    | some c =>
      rw [hc] at h
      exact Or.inl (Option.some.inj h ▸ hcanon (parsePath s) c hc)
    | none =>
      rw [hc] at h
      exact Or.inr ⟨s, rfl, hc, (Option.some.inj h).symm⟩

/-- C7 witness: with a succeeding absolute canonicalization the resolved
root is absolute. -/
theorem expanded_path_absolute_or_expanded_fallback_witness :
    (⟨true, [[some 'x']]⟩ : FsPath).absolute = true ∨
      ∃ s, expandId "x" = some s ∧ canonAbs (parsePath s) = none ∧
        (⟨true, [[some 'x']]⟩ : FsPath) = parsePath s :=
  expanded_path_absolute_or_expanded_fallback expandId canonAbs
    ⟨"x", false, [], ⟨none, none, []⟩⟩ ⟨true, [[some 'x']]⟩
    (fun q c hc => by injection hc with h2; rw [← h2]) (by decide)

/-! ### C8: error batches are logged and the loop continues -/

/-- C8: an error batch contributes one log line per error, dispatches no
action, and the remaining batches are processed exactly as they would have
been without it; concretely, after an `Err ["device busy"]` batch the next
event batch still dispatches its command. -/
theorem error_batch_logged_loop_continues :
    (∀ (resolve : WatchConfig → Option FsPath) (config : Config)
        (errors : List String) (rest : List DebounceBatch),
        (run_event_loop resolve config (.Err errors :: rest)).1
            = errors.map (fun e => "Debouncer error: " ++ e)
                ++ (run_event_loop resolve config rest).1
        ∧ (run_event_loop resolve config (.Err errors :: rest)).2
            = (run_event_loop resolve config rest).2)
    ∧ run_event_loop (fun _ => some (parsePath "/w")) cfgAnyAny
        [.Err ["device busy"], .Ok [⟨.Create .File, [parsePath "/w/a.txt"]⟩]]
        = (["Debouncer error: device busy"],
           [("echo hi", parsePath "/w/a.txt")]) := by
  refine ⟨?_, by decide⟩
  intro resolve config errors rest
  rcases hr : run_event_loop resolve config rest with ⟨logs, ds⟩
  simp [run_event_loop, hr]

end Kadesh
